import Mathlib

/-!
Verification of the sentence-level synonym annotation pipeline of the MTU
journaling app.  Definitions are shallow embeddings of the JavaScript in
`src/mtu/src/App.js` and `src/mtu/src/Backend/custom.js`.  Strings are
modelled as Lean `String` / `List Char`; JS lowercasing is modelled on the
basic-latin range (the only range the claims exercise); JS numbers in the
tooltip geometry are modelled as rationals (all the arithmetic involved is
exact in binary floating point at the magnitudes used).
-/

/-- The character `{` (written via its code point to keep it out of literals). -/
def lbraceC : Char := Char.ofNat 123

/-- The character `}`. -/
def rbraceC : Char := Char.ofNat 125

/-- The double-quote character `"`. -/
def quoteC : Char := Char.ofNat 34

/-- The backslash character. -/
def backslashC : Char := Char.ofNat 92

/-- Build a `String` from a list of characters. -/
def strOf (l : List Char) : String := String.mk l

@[simp] theorem strOf_data (l : List Char) : (strOf l).data = l := rfl

/-- The sentence-delimiter class `[.!?]` of `App.js` line 138. -/
def isDelim (c : Char) : Bool := c = '.' || c = '!' || c = '?'

/-- The JS regex class `\s` (ECMAScript WhiteSpace ∪ LineTerminator), which is
also the set trimmed by `String.prototype.trim`. -/
def isSpaceJS (c : Char) : Bool :=
  c.toNat = 9 || c.toNat = 10 || c.toNat = 11 || c.toNat = 12 || c.toNat = 13 ||
  c.toNat = 32 || c.toNat = 160 || c.toNat = 5760 ||
  (8192 ≤ c.toNat && c.toNat ≤ 8202) || c.toNat = 8232 || c.toNat = 8233 ||
  c.toNat = 8239 || c.toNat = 8287 || c.toNat = 12288 || c.toNat = 65279

/-- The punctuation class `[.,!?;:"()]` stripped by `renderTextWithSynonyms`
(`App.js` line 150) and `handleWordHover` (line 96), by code point:
46 `.`, 44 `,`, 33 `!`, 63 `?`, 59 `;`, 58 `:`, 34 the double quote,
40 `(`, 41 `)`. -/
def isPunct (c : Char) : Bool :=
  c.toNat = 46 || c.toNat = 44 || c.toNat = 33 || c.toNat = 63 || c.toNat = 59 ||
  c.toNat = 58 || c.toNat = 34 || c.toNat = 40 || c.toNat = 41

/-- `String.prototype.trim` on a character list. -/
def trimList (l : List Char) : List Char :=
  ((l.dropWhile isSpaceJS).reverse.dropWhile isSpaceJS).reverse

/-- `String.prototype.trim`. -/
def trimJS (s : String) : String := strOf (trimList s.data)

/-- `String.prototype.toLowerCase`, modelled on the basic-latin range. -/
def lowerStr (s : String) : String := strOf (s.data.map Char.toLower)

/-- `word.replace(/[.,!?;:"()]/g, '')`. -/
def stripPunct (s : String) : String := strOf (s.data.filter (fun c => ! isPunct c))

/-- The word normalization of `renderTextWithSynonyms` (`App.js` line 150):
`word.replace(/[.,!?;:"()]/g, '').toLowerCase()`. -/
def cleanWordRender (w : String) : String := lowerStr (stripPunct w)

/-- The word normalization of `handleWordHover` (`App.js` line 96):
`word.toLowerCase().replace(/[.,!?;:"()]/g, '')`. -/
def cleanWordHover (w : String) : String := stripPunct (lowerStr w)

/-- The synonym-cache key of `App.js` lines 12 and 66:
`sentence.toLowerCase().trim()`. -/
def cacheKeyOf (s : String) : String := trimJS (lowerStr s)

/-- Modelled from the spec glossary's words "lowercase + stripped punctuation +
trimmed whitespace": the single normalization function the spec asserts is
used everywhere.  Kept separate from the source-derived normalizations above
so the two can be compared. -/
def normSpec (s : String) : String := trimJS (stripPunct (lowerStr s))

/-!  ### The tokenizer (`renderTextWithSynonyms`, `App.js` lines 136-172)

`text.split(/([.!?]+)/)` and `sentence.split(/(\s+)/)` are JS split with a
capture group: they cut the string at the maximal runs of the class and keep
those runs as tokens.  The result starts and ends with a (possibly empty)
non-matching segment.  `wordGo`/`delimGo` implement exactly that convention.
-/

mutual

/-- JS capture-group split, while inside a non-matching segment
(accumulated reversed in `acc`). -/
def wordGo (p : Char → Bool) (acc : List Char) : List Char → List (List Char)
  | [] => [acc.reverse]
  | c :: cs => if p c then acc.reverse :: delimGo p [c] cs else wordGo p (c :: acc) cs

/-- JS capture-group split, while inside a matching run. -/
def delimGo (p : Char → Bool) (acc : List Char) : List Char → List (List Char)
  | [] => [acc.reverse, []]
  | c :: cs => if p c then delimGo p (c :: acc) cs else acc.reverse :: wordGo p [c] cs

end

/-- `s.split(/(<class p>+)/)` for a one-character class `p`. -/
def splitCap (p : Char → Bool) (s : List Char) : List (List Char) := wordGo p [] s

/-- Per-sentence-span tokenization (`App.js` lines 140-145): spans that are
blank or pure delimiter runs are kept whole; the rest are split on runs of
whitespace, keeping the whitespace tokens. -/
def tokenizeSentence (s : List Char) : List (List Char) :=
  if s.all isSpaceJS || (!s.isEmpty && s.all isDelim) then [s]
  else splitCap isSpaceJS s

/-- The full tokenization of one text: split on runs of `.!?` keeping the
delimiter runs, then tokenize each span. -/
def tokenize (s : List Char) : List (List Char) :=
  (splitCap isDelim s).flatMap tokenizeSentence

/-- String-level tokenizer. -/
def tokenizeStr (s : String) : List String := (tokenize s.data).map strOf

/-! ### Round-trip lemmas for claim C1 -/

theorem wordGo_delimGo_flatten (p : Char → Bool) :
    ∀ s : List Char,
      (∀ acc, (wordGo p acc s).flatten = acc.reverse ++ s) ∧
      (∀ acc, (delimGo p acc s).flatten = acc.reverse ++ s) := by
  intro s
  induction s with
  | nil =>
    constructor <;> intro acc <;> simp [wordGo, delimGo]
  | cons c cs ih =>
    constructor <;> intro acc
    · rw [wordGo]
      cases hpc : p c <;> simp [ih.1, ih.2]
    · rw [delimGo]
      cases hpc : p c <;> simp [ih.1, ih.2]

theorem splitCap_flatten (p : Char → Bool) (s : List Char) :
    (splitCap p s).flatten = s := by
  have h := (wordGo_delimGo_flatten p s).1 []
  simp only [List.reverse_nil, List.nil_append] at h
  exact h

theorem tokenizeSentence_flatten (s : List Char) :
    (tokenizeSentence s).flatten = s := by
  unfold tokenizeSentence
  split
  · simp
  · exact splitCap_flatten _ s

theorem tokenize_flatten (s : List Char) : (tokenize s).flatten = s := by
  unfold tokenize
  conv_rhs => rw [← splitCap_flatten isDelim s]
  generalize splitCap isDelim s = parts
  induction parts with
  | nil => simp
  | cons x xs ih => simp [List.flatMap_cons, tokenizeSentence_flatten, ih]

theorem join_data (L : List String) :
    (String.join L).data = (L.map String.data).flatten := by
  have aux : ∀ (L : List String) (a : String),
      (L.foldl (· ++ ·) a).data = a.data ++ (L.map String.data).flatten := by
    intro L
    induction L with
    | nil => intro a; simp
    | cons x xs ih => intro a; simp [ih, String.data_append]
  exact (aux L "").trans (by simp)

/-- C1: for every input text `T`, tokenizing `T` — splitting into sentence
spans on runs of `.`, `!`, `?` with the delimiter runs kept as separate
tokens, then splitting each non-delimiter span on runs of whitespace with the
whitespace kept as tokens — and concatenating all produced tokens back
together in order yields exactly `T`. -/
theorem tokenize_roundtrip (s : String) : String.join (tokenizeStr s) = s := by
  apply String.ext
  rw [join_data]
  have : (tokenizeStr s).map String.data = tokenize s.data := by
    simp [tokenizeStr, List.map_map, Function.comp_def]
  rw [this, tokenize_flatten]

/-! ### JSON values and `JSON.parse` (used by `custom.js` lines 176-197)

`Json` mirrors the ECMA JSON value grammar.  Numbers keep their source
lexeme: no claim inspects a numeric value, only whether a given text parses.
Object fields are built with JS-object assignment semantics (a repeated key
overwrites the value, keeping the first insertion position).
-/

inductive Json where
  | null
  | bool (b : Bool)
  | num (lexeme : String)
  | str (s : String)
  | arr (items : List Json)
  | obj (fields : List (String × Json))

/-- Association-list lookup with string keys (JS `Map.get` / property read). -/
def mapLookup (k : String) : List (String × α) → Option α
  | [] => none
  | (k0, v) :: rest => if k0 = k then some v else mapLookup k rest

/-- Association-list update (JS `Map.set` / property assignment): replace the
value in place if the key exists, otherwise append. -/
def mapSet (m : List (String × α)) (k : String) (v : α) : List (String × α) :=
  match m with
  | [] => [(k, v)]
  | (k0, v0) :: rest => if k0 = k then (k0, v) :: rest else (k0, v0) :: mapSet rest k v

/-- JSON insignificant whitespace. -/
def isJsonWs (c : Char) : Bool :=
  c = ' ' || c = '\t' || c = '\n' || c = '\r'

/-- Skip JSON whitespace. -/
def skipWs (s : List Char) : List Char := s.dropWhile isJsonWs

/-- Hexadecimal digit value, if any. -/
def hexVal (c : Char) : Option Nat :=
  if '0' ≤ c && c ≤ '9' then some (c.toNat - 48)
  else if 'a' ≤ c && c ≤ 'f' then some (c.toNat - 87)
  else if 'A' ≤ c && c ≤ 'F' then some (c.toNat - 55)
  else none

/-- JSON simple string escapes. -/
def escChar (c : Char) : Option Char :=
  if c = quoteC then some quoteC
  else if c = backslashC then some backslashC
  else if c = '/' then some '/'
  else if c = 'b' then some (Char.ofNat 8)
  else if c = 'f' then some (Char.ofNat 12)
  else if c = 'n' then some '\n'
  else if c = 'r' then some '\r'
  else if c = 't' then some '\t'
  else none

/-- Parse the body of a JSON string literal (after the opening quote),
returning the decoded characters and the remaining input. -/
def parseStrBody : List Char → Option (List Char × List Char)
  | [] => none
  | c :: rest =>
    if c = quoteC then some ([], rest)
    else if c = backslashC then
      match rest with
      | [] => none
      | e :: rest2 =>
        if e = 'u' then
          match rest2 with
          | a :: b :: c2 :: d :: rest3 =>
            match hexVal a, hexVal b, hexVal c2, hexVal d with
            | some x, some y, some z, some w =>
              (fun p : List Char × List Char =>
                (Char.ofNat (x * 4096 + y * 256 + z * 16 + w) :: p.1, p.2)) <$>
                parseStrBody rest3
            | _, _, _, _ => none
          | _ => none
        else
          match escChar e with
          | some ec => (fun p : List Char × List Char => (ec :: p.1, p.2)) <$> parseStrBody rest2
          | none => none
    else if c.toNat < 32 then none
    else (fun p : List Char × List Char => (c :: p.1, p.2)) <$> parseStrBody rest

/-- Split off a maximal run of decimal digits. -/
def digitsSplit (s : List Char) : List Char × List Char :=
  (s.takeWhile Char.isDigit, s.dropWhile Char.isDigit)

/-- Optional JSON fraction part. -/
def parseFrac : List Char → Option (List Char × List Char)
  | [] => some ([], [])
  | d :: rest =>
    if d = '.' then
      match digitsSplit rest with
      | ([], _) => none
      | (ds, r) => some (d :: ds, r)
    else some ([], d :: rest)

/-- Optional JSON exponent part. -/
def parseExp : List Char → Option (List Char × List Char)
  | [] => some ([], [])
  | c :: rest =>
    if c = 'e' || c = 'E' then
      let (sgn, r1) :=
        match rest with
        | d :: r => if d = '+' || d = '-' then ([d], r) else (([] : List Char), d :: r)
        | [] => ([], [])
      match digitsSplit r1 with
      | ([], _) => none
      | (ds, r) => some (c :: (sgn ++ ds), r)
    else some ([], c :: rest)

/-- Parse a JSON number starting at `s`, keeping its lexeme. -/
def parseNumFrom (s : List Char) : Option (Json × List Char) :=
  let (sign, s1) :=
    match s with
    | c :: rest => if c = '-' then ([c], rest) else (([] : List Char), c :: rest)
    | [] => ([], [])
  match s1 with
  | [] => none
  | c :: rest =>
    if ! c.isDigit then none
    else
      let (ip, r1) := if c = '0' then ([c], rest) else digitsSplit (c :: rest)
      match parseFrac r1 with
      | none => none
      | some (fp, r2) =>
        match parseExp r2 with
        | none => none
        | some (ep, r3) => some (.num (strOf (sign ++ ip ++ fp ++ ep)), r3)

/-- Match a literal keyword tail. -/
def expectLit (pat : List Char) (s : List Char) : Option (List Char) :=
  if s.take pat.length = pat then some (s.drop pat.length) else none

mutual

/-- Parse one JSON value (leading whitespace allowed); `fuel` bounds the
nesting depth and is always instantiated at the input length plus one, which
suffices because at least one character is consumed before each recursive
call. -/
def parseVal : Nat → List Char → Option (Json × List Char)
  | 0, _ => none
  | fuel + 1, input =>
    match skipWs input with
    | [] => none
    | c :: rest =>
      if c = quoteC then
        match parseStrBody rest with
        | some (cs, r) => some (.str (strOf cs), r)
        | none => none
      else if c = lbraceC then
        match skipWs rest with
        | d :: r2 => if d = rbraceC then some (.obj [], r2) else parseFields fuel (skipWs rest) []
        | [] => none
      else if c = '[' then
        match skipWs rest with
        | d :: r2 => if d = ']' then some (.arr [], r2) else parseItems fuel (skipWs rest) []
        | [] => none
      else if c = 't' then (expectLit "rue".data rest).map (fun r => (.bool true, r))
      else if c = 'f' then (expectLit "alse".data rest).map (fun r => (.bool false, r))
      else if c = 'n' then (expectLit "ull".data rest).map (fun r => (.null, r))
      else if c = '-' || c.isDigit then parseNumFrom (c :: rest)
      else none

/-- Parse the items of a non-empty JSON array (accumulated reversed). -/
def parseItems : Nat → List Char → List Json → Option (Json × List Char)
  | 0, _, _ => none
  | fuel + 1, input, acc =>
    match parseVal fuel input with
    | none => none
    | some (v, r) =>
      match skipWs r with
      | c :: r2 =>
        if c = ',' then parseItems fuel r2 (v :: acc)
        else if c = ']' then some (.arr (v :: acc).reverse, r2)
        else none
      | [] => none

/-- Parse the members of a non-empty JSON object (accumulated reversed; on
success the members are replayed with JS-object assignment semantics). -/
def parseFields : Nat → List Char → List (String × Json) → Option (Json × List Char)
  | 0, _, _ => none
  | fuel + 1, input, acc =>
    match skipWs input with
    | [] => none
    | c :: rest =>
      if c = quoteC then
        match parseStrBody rest with
        | none => none
        | some (ks, r) =>
          match skipWs r with
          | [] => none
          | d :: r2 =>
            if d = ':' then
              match parseVal fuel r2 with
              | none => none
              | some (v, r3) =>
                match skipWs r3 with
                | [] => none
                | e :: r4 =>
                  if e = ',' then parseFields fuel r4 ((strOf ks, v) :: acc)
                  else if e = rbraceC then
                    some (.obj (((strOf ks, v) :: acc).reverse.foldl
                      (fun m kv => mapSet m kv.1 kv.2) []), r4)
                  else none
            else none
      else none

end

/-- `JSON.parse`: a whole text parses to one value with only whitespace
around it; anything else throws (modelled as `none`). -/
def jsonParse (s : List Char) : Option Json :=
  match parseVal (s.length + 1) s with
  | some (v, rest) => if (skipWs rest).isEmpty then some v else none
  | none => none

/-! ### The synonym-response parser (`custom.js`, `getSynonymsForSentence`,
lines 143-202) -/

/-- The first match of `/\{[\s\S]*?\}/`: the lazy quantifier makes it the
substring running from the first brace-open up to the first brace-close after
it (no match when either is missing). -/
def extractLazyBrace (s : List Char) : Option (List Char) :=
  match s.dropWhile (fun c => c ≠ lbraceC) with
  | [] => none
  | c :: rest =>
    match rest.dropWhile (fun d => d ≠ rbraceC) with
    | [] => none
    | _ :: _ => some (c :: rest.takeWhile (fun d => d ≠ rbraceC) ++ [rbraceC])

/-- The first match of `/\{[^{}]*\}/`: the first brace-open whose next brace
character is a brace-close, together with the run between them. -/
def extractSimpleBrace : List Char → Option (List Char)
  | [] => none
  | c :: rest =>
    if c = lbraceC then
      match rest.dropWhile (fun d => d ≠ lbraceC && d ≠ rbraceC) with
      | d :: _ =>
        if d = rbraceC then
          some (c :: rest.takeWhile (fun e => e ≠ lbraceC && e ≠ rbraceC) ++ [rbraceC])
        else extractSimpleBrace rest
      | [] => extractSimpleBrace rest
    else extractSimpleBrace rest

/-- JS truthiness of a parsed JSON value (`parsed && ...`). -/
def jsTruthy : Json → Bool
  | .null => false
  | .bool b => b
  | .num lexeme => (lexeme.data.takeWhile (fun c => c ≠ 'e' && c ≠ 'E')).any
      (fun c => c.isDigit && c ≠ '0')
  | .str s => ! s.isEmpty
  | .arr _ => true
  | .obj _ => true

/-- `typeof parsed === 'object'` for a parsed JSON value (also true of
`null` and arrays, as in JS). -/
def jsTypeofObject : Json → Bool
  | .null => true
  | .arr _ => true
  | .obj _ => true
  | _ => false

/-- `Object.keys(parsed).length` for a parsed JSON value. -/
def jsKeysLength : Json → Nat
  | .obj fields => fields.length
  | .arr items => items.length
  | .str s => s.length
  | _ => 0

/-- The fields of a parsed JSON object (`[]` for non-objects; every value
this is applied to below starts with a brace, hence is an object when it
parses). -/
def objFieldsOf : Json → List (String × Json)
  | .obj fields => fields
  | _ => []

/-- The object returned by a synonym lookup: the word-to-synonyms object of
the spec, with values kept as raw JSON. -/
abbrev SynMap := List (String × Json)

/-- The parsing policy of `CustomAIService.getSynonymsForSentence`
(`custom.js` lines 176-197) applied to the raw model response:
extract the first lazy `{...}` match and `JSON.parse` it; on a parsed
non-empty object return it; on a parse error, strip `\n\r\t` from the whole
response, extract the first single-level `{...}` match and `JSON.parse` that;
every other outcome yields the empty object. -/
def parseSynonymResponse (response : String) : SynMap :=
  match extractLazyBrace response.data with
  | none => []
  | some matched =>
    match jsonParse matched with
    | some parsed =>
      if jsTruthy parsed && jsTypeofObject parsed && decide (0 < jsKeysLength parsed) then
        objFieldsOf parsed
      else []
    | none =>
      let cleaned := response.data.filter (fun c => c ≠ '\n' && c ≠ '\r' && c ≠ '\t')
      match extractSimpleBrace cleaned with
      | some matched2 =>
        match jsonParse matched2 with
        | some parsed2 => objFieldsOf parsed2
        | none => []
      | none => []

/-- `CustomAIService.getSynonymsForSentence` as seen from its caller: the
whole body is wrapped in `try { ... } catch { return {} }`, so a failure of
the generative-service call itself (`none`) also yields the empty object. -/
def getSynonymsForSentenceCustom (serviceResponse : Option String) : SynMap :=
  match serviceResponse with
  | none => []
  | some response => parseSynonymResponse response

/-- C2: the synonym-response parser maps the documented inputs to the
documented outputs: a response with preamble and trailing text around a
single-word object yields that one-key mapping, a response without JSON
yields the empty mapping, and a bare empty object yields the empty mapping. -/
theorem parseSynonymResponse_examples :
    parseSynonymResponse
        "Some preamble \x7b\"very\":[\"extremely\",\"incredibly\",\"remarkably\"]\x7d trailing" =
      [("very", Json.arr [Json.str "extremely", Json.str "incredibly", Json.str "remarkably"])] ∧
    parseSynonymResponse "no json here" = [] ∧
    parseSynonymResponse "\x7b\x7d" = [] := by
  refine ⟨?_, ?_, ?_⟩ <;> rfl

/-- C3: the synonym-response boundary never lets a failure escape: a failed
service call, an absent JSON candidate, a candidate that fails both parse
attempts, a parsed value that is falsy or not an object, and a successfully
parsed empty object (in either parse stage) all yield the empty mapping. -/
theorem getSynonymsForSentenceCustom_failures (resp : Option String) :
    (resp = none → getSynonymsForSentenceCustom resp = []) ∧
    (∀ r, resp = some r →
      (extractLazyBrace r.data = none → getSynonymsForSentenceCustom resp = []) ∧
      (∀ t, extractLazyBrace r.data = some t →
        (∀ v, jsonParse t = some v → jsTruthy v = false →
          getSynonymsForSentenceCustom resp = []) ∧
        (∀ v, jsonParse t = some v → jsTypeofObject v = false →
          getSynonymsForSentenceCustom resp = []) ∧
        (∀ v, jsonParse t = some v → jsKeysLength v = 0 →
          getSynonymsForSentenceCustom resp = []) ∧
        (jsonParse t = none →
          (extractSimpleBrace (r.data.filter (fun c => c ≠ '\n' && c ≠ '\r' && c ≠ '\t')) =
              none → getSynonymsForSentenceCustom resp = []) ∧
          (∀ t2,
            extractSimpleBrace (r.data.filter (fun c => c ≠ '\n' && c ≠ '\r' && c ≠ '\t')) =
              some t2 →
            (jsonParse t2 = none → getSynonymsForSentenceCustom resp = []) ∧
            (jsonParse t2 = some (Json.obj []) →
              getSynonymsForSentenceCustom resp = []))))) := by
  constructor
  · rintro rfl
    rfl
  · rintro r rfl
    simp only [getSynonymsForSentenceCustom]
    constructor
    · intro h
      simp [parseSynonymResponse, h]
    · intro t ht
      refine ⟨?_, ?_, ?_, ?_⟩
      · intro v hv htr
        simp [parseSynonymResponse, ht, hv, htr]
      · intro v hv hty
        simp [parseSynonymResponse, ht, hv, hty]
      · intro v hv hk
        simp [parseSynonymResponse, ht, hv, hk]
      · intro hfail
        constructor
        · intro h2
          simp only [ne_eq, decide_not] at h2
          simp [parseSynonymResponse, ht, hfail, h2]
        · intro t2 h2
          constructor
          · intro hp2
            simp only [ne_eq, decide_not] at h2
            simp [parseSynonymResponse, ht, hfail, h2, hp2]
          · intro hp2
            simp only [ne_eq, decide_not] at h2
            simp [parseSynonymResponse, ht, hfail, h2, hp2, objFieldsOf]

/-- Witness for C3: the parser applied to a concrete response with no JSON
candidate returns the empty mapping. -/
theorem getSynonymsForSentenceCustom_failures_witness :
    getSynonymsForSentenceCustom (some "no json here") = [] :=
  (((getSynonymsForSentenceCustom_failures (some "no json here")).2
    "no json here" rfl).1) rfl

/-! ### The App-level synonym lookup (`App.js` lines 8-32 and 61-91)

`getSynonymsForSentence` in `App.js` checks the module-wide cache, otherwise
awaits the backend call and caches a non-empty result.  To talk about
overlapping calls it is split at its single `await`: `getSynPhaseA` is the
synchronous part up to (and including) issuing the external call, and
`getSynPhaseB` resumes when the backend response arrives.  `externalCalls`
counts issued backend calls.  The backend outcome is `none` when the call
throws, otherwise the object it resolved to.
-/

structure GState where
  cache : List (String × SynMap)
  externalCalls : Nat

/-- `App.js` lines 11-20: compute the cache key, return a hit, otherwise
issue the external call (modelled by bumping `externalCalls`). -/
def getSynPhaseA (g : GState) (sentence : String) : GState × Option SynMap :=
  match mapLookup (cacheKeyOf sentence) g.cache with
  | some m => (g, some m)
  | none => ({ g with externalCalls := g.externalCalls + 1 }, none)

/-- `App.js` lines 20-31: the continuation after the await.  A thrown call
(`none`) is caught and yields the empty object; a non-empty object is cached
and returned; anything else yields the empty object uncached. -/
def getSynPhaseB (g : GState) (sentence : String) (resp : Option SynMap) : GState × SynMap :=
  match resp with
  | none => (g, [])
  | some m =>
    if m.isEmpty then (g, [])
    else ({ g with cache := mapSet g.cache (cacheKeyOf sentence) m }, m)

/-- A whole, uninterleaved run of `getSynonymsForSentence` (`App.js`
lines 11-32). -/
def lookupOnce (g : GState) (sentence : String) (resp : Option SynMap) : GState × SynMap :=
  match getSynPhaseA g sentence with
  | (g1, some m) => (g1, m)
  | (g1, none) => getSynPhaseB g1 sentence resp

/-- Per-component state of `SynonymText`: the `isLoadingRef` flag and the
`sentenceSynonyms` state (`App.js` lines 60-61). -/
structure CompState where
  loading : Bool
  syns : SynMap

/-- A freshly mounted `SynonymText` component. -/
def compInit : CompState := { loading := false, syns := [] }

/-- What a `loadSentenceSynonyms` invocation did up to its await point. -/
inductive LoadStatus where
  | skipped
  | doneCache
  | pending
  deriving DecidableEq

/-- `loadSentenceSynonyms` (`App.js` lines 76-91) up to its await: bail out
on blank text or when this component's lookup is already in flight; on a
cache hit the awaited value resolves without an external call and the
completion is applied immediately; otherwise the external call is issued and
the invocation stays pending. -/
def loadA (c : CompState) (g : GState) (text : String) : CompState × GState × LoadStatus :=
  if trimJS text = "" || c.loading then (c, g, .skipped)
  else
    match getSynPhaseA g text with
    | (g1, some m) =>
      ({ loading := false, syns := if m.isEmpty then c.syns else m }, g1, .doneCache)
    | (g1, none) => ({ c with loading := true }, g1, .pending)

/-- The continuation of a pending `loadSentenceSynonyms` once the backend
response arrives: finish `getSynonymsForSentence`, publish a non-empty
result into component state, and clear the in-flight flag (`finally`). -/
def loadB (c : CompState) (g : GState) (text : String) (resp : Option SynMap) :
    CompState × GState :=
  match getSynPhaseB g text resp with
  | (g1, res) => ({ loading := false, syns := if res.isEmpty then c.syns else res }, g1)

/-! ### Word interactivity (`renderTextWithSynonyms`, `App.js` lines 149-167) -/

/-- The interactivity decision of `App.js` line 153:
`enableSynonyms && sentenceSynonyms[cleanWord] && word.trim()`.
SynonymMap values are JS arrays, which are always truthy, so the property
read is truthy exactly when the key is present; `word.trim()` is truthy
exactly when the token has non-whitespace content. -/
def isInteractive (enableSynonyms : Bool) (sentenceSynonyms : List (String × List String))
    (word : String) : Bool :=
  enableSynonyms && (mapLookup (cleanWordRender word) sentenceSynonyms).isSome &&
    (trimJS word != "")

/-- One rendered line (`App.js` lines 136-172): each produced token paired
with whether it is rendered as an interactive synonym word (blank and
pure-delimiter spans are rendered plain). -/
def renderLine (enableSynonyms : Bool) (syns : List (String × List String))
    (line : String) : List (String × Bool) :=
  (splitCap isDelim line.data).flatMap (fun sentence =>
    if sentence.all isSpaceJS || (!sentence.isEmpty && sentence.all isDelim) then
      [(strOf sentence, false)]
    else
      (splitCap isSpaceJS sentence).map
        (fun w => (strOf w, isInteractive enableSynonyms syns (strOf w))))

/-- C4: a word token (a token with non-whitespace content) is rendered as
interactive if and only if annotation is enabled for the entry and the
token's normalized form is a key of the active SynonymMap. -/
theorem word_interactive_iff (enableSynonyms : Bool)
    (syns : List (String × List String)) (w : String) (hword : trimJS w ≠ "") :
    isInteractive enableSynonyms syns w = true ↔
      enableSynonyms = true ∧ (mapLookup (cleanWordRender w) syns).isSome = true := by
  simp [isInteractive, hword, Bool.and_assoc]

/-- Witness for C4 at a concrete entry: the eligible word `Very,` (normalized
`very`, a key of the map) is interactive; instantiating the theorem also
covers the ineligible side since the equivalence is two-way. -/
theorem word_interactive_iff_witness :
    trimJS "Very," ≠ "" ∧
    (isInteractive true [("very", ["extremely", "incredibly", "remarkably"])] "Very," = true ↔
      true = true ∧
      (mapLookup (cleanWordRender "Very,")
        [("very", ["extremely", "incredibly", "remarkably"])]).isSome = true) :=
  ⟨by decide,
    word_interactive_iff true [("very", ["extremely", "incredibly", "remarkably"])] "Very,"
      (by decide)⟩

/-! ### Tooltip placement (`handleWordHover`, `App.js` lines 93-129)

The geometry inputs are the hovered word's bounding box, the containing
`.entry-content` box and the viewport width.  The anchor `x` is relative to
the container; the rendered tooltip is centred on the anchor
(`translateX(-50%)`), so its on-screen footprint is the interval of the
estimated width centred at `x + parentLeft`.
-/

structure HoverGeom where
  rectLeft : ℚ
  rectWidth : ℚ
  parentLeft : ℚ
  viewportWidth : ℚ

/-- `App.js` lines 112-113: `Math.max(140, synonymText.length * 6.5 + 70)`
with `synonymText = wordSynonyms.join(' • ')`. -/
def tooltipEstimatedWidth (wordSynonyms : List String) : ℚ :=
  max 140 ((String.intercalate " • " wordSynonyms).length * (13 / 2 : ℚ) + 70)

/-- The anchor computation of `App.js` lines 108-125: centre on the word's
midpoint relative to the container, but clamp when the estimated footprint —
measured from the word's left edge `rect.left`, as in the source — would
cross either viewport margin. -/
def tooltipAnchorX (geom : HoverGeom) (w : ℚ) : ℚ :=
  let x := geom.rectLeft + geom.rectWidth / 2 - geom.parentLeft
  if geom.rectLeft - w / 2 < 10 then 10 - geom.parentLeft + w / 2
  else if geom.rectLeft + w / 2 > geom.viewportWidth - 10 then
    geom.viewportWidth - 10 - geom.parentLeft - w / 2
  else x

/-- Counterexample to C5 as stated: in a viewport of width 150 the estimated
tooltip (width 140) cannot fit inside `[10, 140]`; for a word at
`rect.left = 50` the clamped anchor puts the tooltip's right edge at 150,
past the right margin 140. -/
theorem tooltip_clamp_cex :
    ¬ (tooltipAnchorX ⟨50, 0, 0, 150⟩ (tooltipEstimatedWidth ["sad"]) + (0 : ℚ) +
        tooltipEstimatedWidth ["sad"] / 2 ≤ 150 - 10) := by
  have hw : tooltipEstimatedWidth ["sad"] = 140 := by
    have hlen : (String.intercalate " • " ["sad"]).length = 3 := rfl
    rw [tooltipEstimatedWidth, hlen]
    norm_num
  rw [hw]
  norm_num [tooltipAnchorX]

/-- C5 amended: when the estimated tooltip fits between the margins
(`width ≤ viewportWidth - 20`) and the hovered word's box has zero width (the
source measures the clamp interval from `rect.left`, not from the word's
midpoint), the anchor keeps the footprint inside
`[10, viewportWidth - 10]`. -/
theorem tooltip_clamp_amended (geom : HoverGeom) (wordSynonyms : List String)
    (hzero : geom.rectWidth = 0)
    (hfit : tooltipEstimatedWidth wordSynonyms ≤ geom.viewportWidth - 20) :
    10 ≤ tooltipAnchorX geom (tooltipEstimatedWidth wordSynonyms) + geom.parentLeft -
        tooltipEstimatedWidth wordSynonyms / 2 ∧
    tooltipAnchorX geom (tooltipEstimatedWidth wordSynonyms) + geom.parentLeft +
        tooltipEstimatedWidth wordSynonyms / 2 ≤ geom.viewportWidth - 10 := by
  unfold tooltipAnchorX
  split_ifs with h1 h2 <;> constructor <;> rw [hzero] at * <;> linarith

/-- Witness for C5 amended: a word at the centre of a wide viewport. -/
theorem tooltip_clamp_amended_witness :
    (⟨500, 0, 0, 1000⟩ : HoverGeom).rectWidth = 0 ∧
    tooltipEstimatedWidth ["sad"] ≤ (⟨500, 0, 0, 1000⟩ : HoverGeom).viewportWidth - 20 ∧
    (10 ≤ tooltipAnchorX ⟨500, 0, 0, 1000⟩ (tooltipEstimatedWidth ["sad"]) +
        (⟨500, 0, 0, 1000⟩ : HoverGeom).parentLeft - tooltipEstimatedWidth ["sad"] / 2 ∧
      tooltipAnchorX ⟨500, 0, 0, 1000⟩ (tooltipEstimatedWidth ["sad"]) +
        (⟨500, 0, 0, 1000⟩ : HoverGeom).parentLeft + tooltipEstimatedWidth ["sad"] / 2 ≤
        (⟨500, 0, 0, 1000⟩ : HoverGeom).viewportWidth - 10) := by
  have hw : tooltipEstimatedWidth ["sad"] = 140 := by
    have hlen : (String.intercalate " • " ["sad"]).length = 3 := rfl
    rw [tooltipEstimatedWidth, hlen]
    norm_num
  refine ⟨rfl, by rw [hw]; norm_num, ?_⟩
  exact tooltip_clamp_amended ⟨500, 0, 0, 1000⟩ ["sad"] rfl (by rw [hw]; norm_num)

/-! ### Claim C6: deduplication of in-flight lookups -/

/-- Counterexample to C6 as stated: two `SynonymText` components with the
byte-identical text `hello` each run `loadSentenceSynonyms`, the second
starting while the first's external request is still in flight.  Each
component has its own `isLoadingRef`, and `getSynonymsForSentence` only
caches after a response arrives, so the second call also misses the cache
and a second external call is issued: the total is 2, not exactly one. -/
theorem inflight_dedup_cex :
    (loadA compInit (loadA compInit ⟨[], 0⟩ "hello").2.1 "hello").2.1.externalCalls = 2 ∧
    (loadA compInit (loadA compInit ⟨[], 0⟩ "hello").2.1 "hello").2.1.externalCalls ≠ 1 := by
  have h : (loadA compInit (loadA compInit ⟨[], 0⟩ "hello").2.1 "hello").2.1.externalCalls
      = 2 := rfl
  exact ⟨h, by rw [h]; decide⟩

/-- C6 amended: the in-flight guard is per component instance.  For a single
`SynonymText` component, a duplicate `loadSentenceSynonyms` call issued while
the first is still in flight short-circuits without touching state or the
network, so exactly one external call is issued for the pair. -/
theorem inflight_dedup_same_component (g : GState) (text : String) (resp : Option SynMap)
    (hblank : trimJS text ≠ "") (hmiss : mapLookup (cacheKeyOf text) g.cache = none) :
    (loadA compInit g text).2.2 = LoadStatus.pending ∧
    (loadA compInit g text).2.1.externalCalls = g.externalCalls + 1 ∧
    loadA (loadA compInit g text).1 (loadA compInit g text).2.1 text =
      ((loadA compInit g text).1, (loadA compInit g text).2.1, LoadStatus.skipped) ∧
    (loadB (loadA compInit g text).1 (loadA compInit g text).2.1 text resp).2.externalCalls =
      g.externalCalls + 1 := by
  have hA : loadA compInit g text =
      ({ compInit with loading := true },
        { g with externalCalls := g.externalCalls + 1 }, LoadStatus.pending) := by
    unfold loadA getSynPhaseA
    rw [if_neg, hmiss]
    simp [compInit, hblank]
  refine ⟨by rw [hA], by rw [hA], ?_, ?_⟩
  · rw [hA]
    unfold loadA
    rw [if_pos]
    simp [compInit]
  · rw [hA]
    unfold loadB getSynPhaseB
    cases resp with
    | none => rfl
    | some m =>
      by_cases hm : m.isEmpty <;> simp [hm]

/-- Witness for C6 amended: concrete overlapped duplicate calls on one
component for the text `hello` against an empty cache. -/
theorem inflight_dedup_same_component_witness :
    trimJS "hello" ≠ "" ∧
    mapLookup (cacheKeyOf "hello") (GState.mk [] 0).cache = none ∧
    (loadB (loadA compInit (GState.mk [] 0) "hello").1
        (loadA compInit (GState.mk [] 0) "hello").2.1 "hello"
        (some [])).2.externalCalls = (GState.mk [] 0).externalCalls + 1 :=
  ⟨by decide, rfl,
    (inflight_dedup_same_component (GState.mk [] 0) "hello" (some [])
      (by decide) rfl).2.2.2⟩

/-! ### Session restore of the vocabulary cache (`loadSession`, `App.js`
lines 705-712) -/

/-- `SYNONYMS_CACHE.clear()`. -/
def clearCache (_cache : List (String × α)) : List (String × α) := []

/-- `App.js` lines 706-712: clear the cache, then `SYNONYMS_CACHE.set` every
stored `vocabularyData` pair in order. -/
def restoreVocab (cache vocabularyData : List (String × α)) : List (String × α) :=
  vocabularyData.foldl (fun m kv => mapSet m kv.1 kv.2) (clearCache cache)

theorem mapLookup_mapSet_self (m : List (String × α)) (k : String) (v : α) :
    mapLookup k (mapSet m k v) = some v := by
  induction m with
  | nil => simp [mapSet, mapLookup]
  | cons p rest ih =>
    obtain ⟨k0, v0⟩ := p
    by_cases h : k0 = k <;> simp [mapSet, mapLookup, h, ih]

theorem mapLookup_mapSet_ne (m : List (String × α)) (k k' : String) (v : α)
    (h : k ≠ k') : mapLookup k' (mapSet m k v) = mapLookup k' m := by
  induction m with
  | nil => simp [mapSet, mapLookup, h]
  | cons p rest ih =>
    obtain ⟨k0, v0⟩ := p
    by_cases h0 : k0 = k
    · subst h0
      simp [mapSet, mapLookup, h]
    · simp [mapSet, mapLookup, h0, ih]

theorem mapLookup_foldl_set_notmem (vd : List (String × α)) (acc : List (String × α))
    (k : String) (h : ∀ kv ∈ vd, kv.1 ≠ k) :
    mapLookup k (vd.foldl (fun m kv => mapSet m kv.1 kv.2) acc) = mapLookup k acc := by
  induction vd generalizing acc with
  | nil => rfl
  | cons kv rest ih =>
    rw [List.foldl_cons, ih _ (fun p hp => h p (List.mem_cons_of_mem kv hp)),
      mapLookup_mapSet_ne _ _ _ _ (h kv (List.mem_cons_self kv rest))]

theorem mapLookup_foldl_set (vd : List (String × α)) (acc : List (String × α))
    (k : String) (hnd : (vd.map Prod.fst).Nodup) :
    mapLookup k (vd.foldl (fun m kv => mapSet m kv.1 kv.2) acc) =
      match mapLookup k vd with
      | some v => some v
      | none => mapLookup k acc := by
  induction vd generalizing acc with
  | nil => rfl
  | cons kv rest ih =>
    obtain ⟨k0, v0⟩ := kv
    simp only [List.map_cons, List.nodup_cons] at hnd
    rw [List.foldl_cons]
    by_cases hk : k0 = k
    · subst hk
      have hnot : ∀ p ∈ rest, p.1 ≠ k0 := by
        intro p hp heq
        exact hnd.1 (heq ▸ List.mem_map_of_mem Prod.fst hp)
      rw [mapLookup_foldl_set_notmem rest _ k0 hnot, mapLookup_mapSet_self]
      simp [mapLookup]
    · rw [ih _ hnd.2]
      simp only [mapLookup, hk, if_false]
      cases mapLookup k rest with
      | none => rw [mapLookup_mapSet_ne _ _ _ _ hk]
      | some v => rfl

/-- C7: restoring a session's stored `vocabularyData` replaces the cache
contents exactly — clear, then insert every stored pair — so afterwards every
lookup returns precisely what the stored mapping holds (`none` for any key
outside it), independently of what the cache held before. -/
theorem loadSession_restoreVocab (cache vocabularyData : List (String × α))
    (hnd : (vocabularyData.map Prod.fst).Nodup) (k : String) :
    mapLookup k (restoreVocab cache vocabularyData) = mapLookup k vocabularyData := by
  unfold restoreVocab clearCache
  rw [mapLookup_foldl_set _ _ _ hnd]
  cases mapLookup k vocabularyData <;> rfl

/-- Witness for C7: restoring `{"sad":["unhappy","gloomy","downhearted"]}`
over a non-empty cache makes `sad` return exactly the stored list and leaves
no trace of the pre-existing key `old`. -/
theorem loadSession_restoreVocab_witness :
    (([("sad", ["unhappy", "gloomy", "downhearted"])].map Prod.fst).Nodup) ∧
    mapLookup "sad" (restoreVocab [("old", ["stale"])]
      [("sad", ["unhappy", "gloomy", "downhearted"])]) =
      some ["unhappy", "gloomy", "downhearted"] ∧
    mapLookup "old" (restoreVocab [("old", ["stale"])]
      [("sad", ["unhappy", "gloomy", "downhearted"])]) = none :=
  ⟨by simp,
    (loadSession_restoreVocab [("old", ["stale"])]
      [("sad", ["unhappy", "gloomy", "downhearted"])] (by simp) "sad").trans rfl,
    (loadSession_restoreVocab [("old", ["stale"])]
      [("sad", ["unhappy", "gloomy", "downhearted"])] (by simp) "old").trans rfl⟩

/-! ### Timestamp recovery on session load (`loadSession`, `App.js`
lines 658-693)

`new Date(string)` is a host function with implementation-defined parsing, so
it is passed in as a parameter `parseDate : String → Option Int` (epoch
milliseconds on success, `none` when the result is an invalid date, which is
what the `isNaN(parsed.getTime())` test detects).  `now` is the `new Date()`
taken for the entry.
-/

structure StoredEntry where
  id : Nat
  text : String
  timestamp : Option String
  colorIndex : Nat

structure LoadedEntry where
  id : Nat
  text : String
  timestamp : Int
  colorIndex : Nat
  deriving DecidableEq

/-- One entry of `App.js` lines 659-675: start from the current time, and
only replace it when the stored timestamp is truthy and parses to a valid
date; everything else (missing, empty, unparsable) keeps the fallback. -/
def fixEntry (parseDate : String → Option Int) (now : Int) (e : StoredEntry) : LoadedEntry :=
  { id := e.id, text := e.text, colorIndex := e.colorIndex,
    timestamp :=
      match e.timestamp with
      | none => now
      | some s =>
        if s = "" then now
        else
          match parseDate s with
          | some t => t
          | none => now }

/-- The whole entry list of a loaded session. -/
def loadEntries (parseDate : String → Option Int) (now : Int)
    (entries : List StoredEntry) : List LoadedEntry :=
  entries.map (fixEntry parseDate now)

/-- C8: loading a session always succeeds entry-for-entry — every stored
entry appears in the loaded list — and an entry whose timestamp is missing,
empty, or fails to parse is loaded with the current time substituted and its
text intact, so it is still displayed (with the fallback timestamp). -/
theorem loadSession_timestamp_fallback (parseDate : String → Option Int) (now : Int)
    (entries : List StoredEntry) :
    (loadEntries parseDate now entries).length = entries.length ∧
    ∀ e ∈ entries,
      (e.timestamp = none ∨ e.timestamp = some "" ∨
        (∃ s, e.timestamp = some s ∧ parseDate s = none)) →
      (fixEntry parseDate now e).timestamp = now ∧
      (fixEntry parseDate now e).text = e.text ∧
      fixEntry parseDate now e ∈ loadEntries parseDate now entries := by
  refine ⟨by simp [loadEntries], ?_⟩
  intro e he hbad
  refine ⟨?_, rfl, List.mem_map_of_mem (fixEntry parseDate now) he⟩
  rcases hbad with h | h | ⟨s, hs, hp⟩
  · simp [fixEntry, h]
  · simp [fixEntry, h]
  · by_cases hemp : s = ""
    · simp [fixEntry, hs, hemp]
    · simp [fixEntry, hs, hemp, hp]

/-- Witness for C8: a session with one entry whose timestamp does not parse
is loaded with the fallback time `12345` and its text intact. -/
theorem loadSession_timestamp_fallback_witness :
    (StoredEntry.mk 1 "hi" (some "garbage") 0) ∈
        [StoredEntry.mk 1 "hi" (some "garbage") 0] ∧
    (fixEntry (fun _ => none) 12345 (StoredEntry.mk 1 "hi" (some "garbage") 0)).timestamp =
      12345 ∧
    (fixEntry (fun _ => none) 12345 (StoredEntry.mk 1 "hi" (some "garbage") 0)).text = "hi" :=
  have h := (loadSession_timestamp_fallback (fun _ => none) 12345
    [StoredEntry.mk 1 "hi" (some "garbage") 0]).2
    (StoredEntry.mk 1 "hi" (some "garbage") 0) (List.mem_singleton.mpr rfl)
    (Or.inr (Or.inr ⟨"garbage", rfl, rfl⟩))
  ⟨List.mem_singleton.mpr rfl, h.1, h.2.1⟩

/-! ### Claim C9: which normalization is applied where -/

theorem char_toNat_inj {a b : Char} (h : a.toNat = b.toNat) : a = b := by
  have := congrArg Char.ofNat h
  rwa [Char.ofNat_toNat, Char.ofNat_toNat] at this

theorem toNat_toLower (c : Char) :
    (Char.toLower c).toNat = if c.toNat ≥ 65 ∧ c.toNat ≤ 90 then c.toNat + 32 else c.toNat := by
  unfold Char.toLower
  split
  · rename_i h
    rw [if_pos h]
    have hvalid : (c.toNat + 32).isValidChar := by
      unfold Nat.isValidChar
      left
      omega
    unfold Char.ofNat
    rw [dif_pos hvalid]
    rfl
  · rename_i h
    rw [if_neg h]

theorem isPunct_toLower (c : Char) : isPunct (Char.toLower c) = isPunct c := by
  have h := toNat_toLower c
  by_cases hr : c.toNat ≥ 65 ∧ c.toNat ≤ 90
  · rw [if_pos hr] at h
    have h1 : isPunct (Char.toLower c) = false := by
      simp only [isPunct, h, Bool.or_eq_false_iff, decide_eq_false_iff_not]
      omega
    have h2 : isPunct c = false := by
      simp only [isPunct, Bool.or_eq_false_iff, decide_eq_false_iff_not]
      omega
    rw [h1, h2]
  · rw [if_neg hr] at h
    rw [char_toNat_inj h]

theorem cleanWordRender_eq_cleanWordHover (w : String) :
    cleanWordRender w = cleanWordHover w := by
  unfold cleanWordRender cleanWordHover lowerStr stripPunct
  simp only [strOf_data]
  congr 1
  induction w.data with
  | nil => rfl
  | cons c cs ih =>
    simp only [List.map_cons, List.filter_cons, isPunct_toLower]
    cases hp : isPunct c <;> simp [hp, ih]

/-- Counterexample to C9 as stated: the cache key of the sentence `Hi.` is
`hi.` (lowercase + trim, punctuation kept), not the `hi` that the claimed
single normalization (lowercase + punctuation-strip + trim) produces. -/
theorem normalization_single_cex : cacheKeyOf "Hi." ≠ normSpec "Hi." := by decide

/-- C9 amended: rendering and hover share one word normalization (lowercase +
punctuation strip, no trim), but cache keys use a different one (lowercase +
trim, punctuation kept): on `Hi.` the cache key is `hi.` while the word
normalization gives `hi`. -/
theorem normalization_amended :
    (∀ w : String, cleanWordRender w = cleanWordHover w) ∧
    cacheKeyOf "Hi." = "hi." ∧ cleanWordRender "Hi." = "hi" := by
  refine ⟨cleanWordRender_eq_cleanWordHover, by decide, by decide⟩

/-! ### Claim C10: only non-empty results are cached -/

theorem lookupOnce_miss_calls (g : GState) (sentence : String) (resp : Option SynMap)
    (hmiss : mapLookup (cacheKeyOf sentence) g.cache = none) :
    (lookupOnce g sentence resp).1.externalCalls = g.externalCalls + 1 := by
  unfold lookupOnce getSynPhaseA
  rw [hmiss]
  simp only
  unfold getSynPhaseB
  cases resp with
  | none => rfl
  | some m => by_cases hm : m.isEmpty <;> simp [hm]

theorem mapSet_forall {P : String × SynMap → Prop} (m : List (String × SynMap))
    (k : String) (v : SynMap) (hm : ∀ p ∈ m, P p) (hv : P (k, v)) :
    ∀ p ∈ mapSet m k v, P p := by
  induction m with
  | nil => simpa [mapSet]
  | cons q rest ih =>
    obtain ⟨k0, v0⟩ := q
    by_cases h : k0 = k
    · subst h
      simp only [mapSet, if_pos rfl]
      intro p hp
      rcases List.mem_cons.mp hp with hp | hp
      · exact hp ▸ hv
      · exact hm p (List.mem_cons_of_mem _ hp)
    · simp only [mapSet, if_neg h]
      intro p hp
      rcases List.mem_cons.mp hp with hp | hp
      · exact hp ▸ hm (k0, v0) (List.mem_cons_self _ _)
      · exact ih (fun q hq => hm q (List.mem_cons_of_mem _ hq)) p hp

/-- C10: the lookup path never stores an empty mapping — starting from a
cache whose values are all non-empty, one full `getSynonymsForSentence` run
preserves that invariant; an empty or failed provider result leaves the cache
untouched; and therefore, for a sentence not in the cache whose lookups keep
yielding no suggestions, every repeated lookup misses the cache again and
issues another external call. -/
theorem cache_never_stores_empty (g : GState) (sentence : String) (resp : Option SynMap)
    (hinv : ∀ p ∈ g.cache, p.2 ≠ []) :
    (∀ p ∈ (lookupOnce g sentence resp).1.cache, p.2 ≠ []) ∧
    ((resp = none ∨ resp = some []) → (lookupOnce g sentence resp).1.cache = g.cache) ∧
    (mapLookup (cacheKeyOf sentence) g.cache = none → (resp = none ∨ resp = some []) →
      mapLookup (cacheKeyOf sentence) (lookupOnce g sentence resp).1.cache = none ∧
      (lookupOnce g sentence resp).1.externalCalls = g.externalCalls + 1 ∧
      ∀ resp2, (lookupOnce (lookupOnce g sentence resp).1 sentence resp2).1.externalCalls =
        g.externalCalls + 2) := by
  refine ⟨?_, ?_, ?_⟩
  · unfold lookupOnce getSynPhaseA
    cases hl : mapLookup (cacheKeyOf sentence) g.cache with
    | some m => simpa using hinv
    | none =>
      simp only
      unfold getSynPhaseB
      cases resp with
      | none => simpa using hinv
      | some m =>
        by_cases hm : m.isEmpty
        · simpa [hm] using hinv
        · simp only [hm, if_neg Bool.false_ne_true]
          exact mapSet_forall _ _ _ hinv (by simpa using hm)
  · intro hr
    unfold lookupOnce getSynPhaseA
    cases hl : mapLookup (cacheKeyOf sentence) g.cache with
    | some m => rfl
    | none =>
      rcases hr with rfl | rfl
      · rfl
      · rfl
  · intro hmiss hr
    have hcache : (lookupOnce g sentence resp).1.cache = g.cache := by
      unfold lookupOnce getSynPhaseA
      rw [hmiss]
      rcases hr with rfl | rfl <;> rfl
    refine ⟨hcache ▸ hmiss, lookupOnce_miss_calls g sentence resp hmiss, ?_⟩
    intro resp2
    rw [lookupOnce_miss_calls (lookupOnce g sentence resp).1 sentence resp2
        (by rw [hcache]; exact hmiss),
      lookupOnce_miss_calls g sentence resp hmiss]

/-- Witness for C10: against an empty cache, two successive lookups of
`hello` that both resolve to the empty object each issue an external call. -/
theorem cache_never_stores_empty_witness :
    (∀ p ∈ (GState.mk [] 0).cache, p.2 ≠ ([] : SynMap)) ∧
    (lookupOnce (lookupOnce (GState.mk [] 0) "hello" (some [])).1 "hello"
      (some [])).1.externalCalls = (GState.mk [] 0).externalCalls + 2 :=
  ⟨by simp,
    ((cache_never_stores_empty (GState.mk [] 0) "hello" (some [])
      (by simp)).2.2 rfl (Or.inr rfl)).2.2 (some [])⟩
